import Mathlib

/-!
Shallow embedding of the satellite fleet tasking system
(`sat_mqtt/groundstation/ground.py`, `sat_mqtt/satellite/satellite.py`,
`sat_multiprocessing/src/sat.py`) together with proofs of the testable
properties of its specification.

The optimizer `cp_solve` builds a CP-SAT model over boolean variables
`assign[(i, s)]` (task `i` assigned to satellite `s`), posts two families of
hard constraints, hands the model to the external solver, and decodes the
returned boolean solution into one task list per satellite.  The external
solver is modelled by its contract: it either reports a best feasible
solution (a boolean matrix satisfying every posted constraint) or reports
that none was found within the time ceiling.  Everything the repository's own
code does — the constraints posted, the objective expression, the decoding,
the error behaviour, and the coordinator's collection and summary logic — is
embedded below, translated from the source.
-/

namespace SatFleet

/-- A task record, as produced by `load_tasks_from_json`: `name`, `payoff`
(a numeric value, embedded as a rational), `resources` (a list of integer
resource ids) and an optional `execution_time`. -/
structure Task where
  name : String
  payoff : ℚ
  resources : List Int
  execution_time : Option Int := none
deriving DecidableEq, Repr, Inhabited

/-- `tasks[i]` — indexing into the catalog, with a default for out-of-range
indices (the embedding only ever uses indices `< tasks.length`). -/
def taskAt (tasks : List Task) (i : Nat) : Task :=
  tasks.getD i default

/-- `ALL_RESOURCES = sorted({r for t in tasks for r in t["resources"]})` —
the set of resource ids mentioned by any task (as a duplicate-free list;
the sort order is irrelevant to the model, only membership matters). -/
def allResources (tasks : List Task) : List Int :=
  ((tasks.map Task.resources).flatten).dedup

/-- `r in task["resources"]` — whether a task requires resource `r`. -/
def requiresRes (t : Task) (r : Int) : Bool :=
  t.resources.contains r

/-- The hard constraints `cp_solve` posts on the boolean matrix
`σ i s` (= `assign[(i, s)]`), identical in both source variants:

* for every task `i`: `sum(assign[(i, s)] for s in range(num_sats)) <= 1`;
* for every satellite `s` and every resource `r` in `ALL_RESOURCES`:
  the assigned tasks on `s` that require `r` number at most 1 (the source
  posts this only when some task requires `r`, which is exactly membership
  in `ALL_RESOURCES`).

A solution returned by the external CP-SAT solver satisfies every posted
constraint; `Feasible` is that contract. -/
def Feasible (tasks : List Task) (n : Nat) (σ : Nat → Nat → Bool) : Prop :=
  (∀ i < tasks.length, ((List.range n).filter (fun s => σ i s)).length ≤ 1) ∧
  (∀ s < n, ∀ r ∈ allResources tasks,
    ((List.range tasks.length).filter
      (fun i => σ i s && requiresRes (taskAt tasks i) r)).length ≤ 1)

instance decidableFeasible (tasks : List Task) (n : Nat) (σ : Nat → Nat → Bool) :
    Decidable (Feasible tasks n σ) := by
  unfold Feasible
  exact inferInstance

/-- The task list decoded for satellite `s`:
`[tasks[i] for i in range(TASK_COUNT) if solver.BooleanValue(assign[(i, s)])]`. -/
def workerList (tasks : List Task) (σ : Nat → Nat → Bool) (s : Nat) : List Task :=
  ((List.range tasks.length).filter (fun i => σ i s)).map (taskAt tasks)

/-- The decoded assignment: `assignment = [[] for _ in range(num_sats)]`
filled by appending `tasks[i]` to `assignment[s]` whenever `assign[(i, s)]`
is true (both variants produce the same per-satellite lists, in increasing
task-index order). -/
def decode (tasks : List Task) (n : Nat) (σ : Nat → Nat → Bool) : List (List Task) :=
  (List.range n).map (workerList tasks σ)

/-- The failure modes of `cp_solve` in `ground.py`: the explicit
`RuntimeError("No feasible assignment found")` (the spec's `Infeasible`),
and the `ZeroDivisionError` raised by `avg_load = TASK_COUNT / num_sats`
when `num_sats == 0`. -/
inductive SolveErr where
  | infeasible
  | zeroDivision
deriving DecidableEq, Repr

/-- `cp_solve` of `sat_mqtt/groundstation/ground.py`.  The model-building
loops have no observable effect beyond the constraint set recorded in
`Feasible`; the observable control flow is:

* line 56, `avg_load = TASK_COUNT / num_sats`, raises `ZeroDivisionError`
  whenever `num_sats == 0` (before the solver ever runs);
* otherwise the solver is invoked; `best` is its contract-level outcome —
  `some σ` when the search found a best feasible solution `σ` within the
  ceiling (status `OPTIMAL`/`FEASIBLE`), `none` when it found none;
* `none` hits `raise RuntimeError("No feasible assignment found")`;
* `some σ` is decoded into per-satellite task lists and returned. -/
def ground_cp_solve (tasks : List Task) (num_sats : Nat)
    (best : Option (Nat → Nat → Bool)) : Except SolveErr (List (List Task)) :=
  if num_sats = 0 then .error .zeroDivision
  else
    match best with
    | none => .error .infeasible
    | some σ => .ok (decode tasks num_sats σ)

/-- `cp_solve` of `sat_multiprocessing/src/sat.py`: same model, same
decoding, but on an unsuccessful solver status it prints
`"No optimal or feasible solution."` and `return None` — no exception.
It computes no average load, so `num_sats == 0` raises nothing. -/
def satmp_cp_solve (tasks : List Task) (num_sats : Nat)
    (best : Option (Nat → Nat → Bool)) : Option (List (List Task)) :=
  match best with
  | none => none
  | some σ => some (decode tasks num_sats σ)

/-- `run_groundstation` of `sat.py` continues with
`total_assigned = sum(len(s) for s in assignment)`: when `cp_solve`
returned `None` this raises `TypeError` (iterating `None`), so the
coordinator crashes before any task list is put on a satellite queue. -/
inductive RunErr where
  | solveReturnedNone
deriving DecidableEq, Repr

/-- The dispatch phase of `run_groundstation` (`sat.py`): the per-satellite
queue contents are exactly the decoded assignment lists; a `None` from
`cp_solve` crashes the coordinator before any dispatch. -/
def satmp_dispatched (tasks : List Task) (num_sats : Nat)
    (best : Option (Nat → Nat → Bool)) : Except RunErr (List (List Task)) :=
  match satmp_cp_solve tasks num_sats best with
  | none => .error .solveReturnedNone
  | some a => .ok a

/-! ## The objective expressions -/

/-- `0/1` value of a boolean decision variable. -/
def b2i (b : Bool) : Int := if b then 1 else 0

/-- Python's `int(x)` on a non-negative numeric value truncates toward
zero (floor for the non-negative values that arise here). -/
def truncQ (x : ℚ) : Int := if 0 ≤ x then ⌊x⌋ else -⌊-x⌋

/-- `int(tasks[i]["payoff"] * 100)` — the payoff coefficient `ground.py`
uses in the objective. -/
def payoffCent (t : Task) : Int := truncQ (t.payoff * 100)

/-- `load[s] == sum(assign[(i, s)] for i in range(TASK_COUNT))`. -/
def loadOf (tasks : List Task) (σ : Nat → Nat → Bool) (s : Nat) : Int :=
  (((List.range tasks.length).filter (fun i => σ i s)).length : Int)

/-- `int(avg_load)` where `avg_load = TASK_COUNT / num_sats`: Python's
float division followed by `int` truncation, i.e. the integer quotient. -/
def intAvgLoad (tasks : List Task) (n : Nat) : Int :=
  ((tasks.length / n : Nat) : Int)

/-- The objective `ground.py` maximizes (lines 58–80):
`sum(int(payoff_i*100) * assign[(i,s)]) - LAMBDA_BALANCE * sum(sq_s)` with
`LAMBDA_BALANCE = 1`, `sq_s = diff_s * diff_s` and
`diff_s = load_s - int(avg_load)`. -/
def groundObjective (tasks : List Task) (n : Nat) (σ : Nat → Nat → Bool) : Int :=
  ((List.range tasks.length).map (fun i =>
      ((List.range n).map (fun s => payoffCent (taskAt tasks i) * b2i (σ i s))).sum)).sum
  - 1 * ((List.range n).map (fun s =>
      (loadOf tasks σ s - intAvgLoad tasks n) * (loadOf tasks σ s - intAvgLoad tasks n))).sum

/-- The objective `sat.py` maximizes (lines 59–64): the plain payoff sum
`sum(tasks[i]["payoff"] * assign[(i,s)])` — no balance term at all. -/
def satObjective (tasks : List Task) (n : Nat) (σ : Nat → Nat → Bool) : ℚ :=
  ((List.range tasks.length).map (fun i =>
      ((List.range n).map (fun s => (taskAt tasks i).payoff * (b2i (σ i s) : ℚ))).sum)).sum

/-- The objective exactly as the specification words it:
`Σ payoff(t) over all assigned (t,w) pairs` minus
`λ · Σ_w (load(w) − avgLoad)²` with `avgLoad = |tasks| / workerCount`
(exact division) and `λ = 1`. -/
def specObjective (tasks : List Task) (n : Nat) (σ : Nat → Nat → Bool) : ℚ :=
  ((List.range tasks.length).map (fun i =>
      ((List.range n).map (fun s => (taskAt tasks i).payoff * (b2i (σ i s) : ℚ))).sum)).sum
  - 1 * ((List.range n).map (fun s =>
      ((loadOf tasks σ s : ℚ) - (tasks.length : ℚ) / (n : ℚ))
        * ((loadOf tasks σ s : ℚ) - (tasks.length : ℚ) / (n : ℚ)))).sum

/-- The set of assigned `(task, satellite)` index pairs of a solution. -/
def assignedPairs (tasks : List Task) (n : Nat) (σ : Nat → Nat → Bool) :
    Finset (Nat × Nat) :=
  (Finset.range tasks.length ×ˢ Finset.range n).filter (fun p => σ p.1 p.2)

/-- The `ground.py` objective as the amended specification words it: the sum
of the integer centi-payoffs `int(100·payoff)` over assigned pairs, minus the
sum over satellites of the squared deviation of the load from the
integer-truncated average load `⌊|tasks| / workerCount⌋`. -/
def amendedGroundObjective (tasks : List Task) (n : Nat) (σ : Nat → Nat → Bool) : Int :=
  (∑ p ∈ assignedPairs tasks n σ, payoffCent (taskAt tasks p.1))
  - ∑ s ∈ Finset.range n, (loadOf tasks σ s - intAvgLoad tasks n) ^ 2

/-- The `sat.py` objective as the amended specification words it: the plain
payoff sum over assigned pairs, with no balance penalty. -/
def amendedSatObjective (tasks : List Task) (n : Nat) (σ : Nat → Nat → Bool) : ℚ :=
  ∑ p ∈ assignedPairs tasks n σ, (taskAt tasks p.1).payoff

/-! ## The coordinator: result collection and summary -/

/-- A result record as published by a satellite:
`{'sat_id': ..., 'task_name': tname, 'success': ..., 'task': task}`. -/
structure Result where
  sat_id : Int
  task_name : String
  success : Bool
  task : Task
deriving DecidableEq, Repr, Inhabited

/-- A value of the coordinator's `summary` dict:
`{'satellite': sat_id, 'success': ok, 'task': task}`. -/
structure Entry where
  satellite : Int
  success : Bool
  task : Task
deriving DecidableEq, Repr, Inhabited

/-- The summary entry built from one collected result. -/
def mkEntry (r : Result) : Entry :=
  ⟨r.sat_id, r.success, r.task⟩

/-- `summary[k] = v` on a Python dict modelled as an insertion-ordered
association list: an existing key keeps its position and has its value
overwritten; a new key is appended at the end. -/
def dictInsert (m : List (String × Entry)) (k : String) (v : Entry) :
    List (String × Entry) :=
  if m.any (fun p => p.1 == k) then
    m.map (fun p => if p.1 == k then (k, v) else p)
  else m ++ [(k, v)]

/-- The summary-building loop of both variants:
`for r in collected: summary[r['task_name']] = {...}` — later results with
the same task name overwrite earlier ones. -/
def buildSummary (collected : List Result) : List (String × Entry) :=
  collected.foldl (fun m r => dictInsert m r.task_name (mkEntry r)) []

/-- `sum(summary[t]['task']['payoff'] for t in summary if summary[t]['success'])`
— the achieved payoff the coordinator reports. -/
def success_payoff (m : List (String × Entry)) : ℚ :=
  ((m.filter (fun p => p.2.success)).map (fun p => p.2.task.payoff)).sum

/-- `sum(summary[t]['task']['payoff'] for t in summary if not summary[t]['success'])`
— the lost payoff the coordinator reports. -/
def failed_payoff (m : List (String × Entry)) : ℚ :=
  ((m.filter (fun p => !p.2.success)).map (fun p => p.2.task.payoff)).sum

/-- `total_payoff = sum(sum(t['payoff'] for t in s) for s in assignment)` and
its catalog analogue: the payoff sum of a task list. -/
def totalPayoff (l : List Task) : ℚ :=
  (l.map Task.payoff).sum

/-- The inbound results channel, abstracted as what it delivers at each
one-time-unit poll: `some r` when a result is ready, `none` when the
one-second `get(timeout=1.0)` expires empty. -/
def emptyStream : Nat → Option Result := fun _ => none

/-- The `ground.py` collection loop,
`while len(collected) < expected and (time.time() - start) < timeout_seconds`,
with time discretised into one-unit poll attempts: `fuel` is the time
remaining until the deadline, `t` the clock, `acc` the collected list.
Returns the collected results with the clock value at loop exit. -/
def collectGo (expected : Nat) (stream : Nat → Option Result) :
    Nat → Nat → List Result → List Result × Nat
  | 0, t, acc => (acc, t)
  | fuel + 1, t, acc =>
    if acc.length < expected then
      match stream t with
      | some r => collectGo expected stream fuel (t + 1) (acc ++ [r])
      | none => collectGo expected stream fuel (t + 1) acc
    else (acc, t)

/-- The `ground.py` collection phase with its deadline
(`timeout_seconds = 30` by default), started at clock 0 with nothing
collected. -/
def groundCollect (expected : Nat) (stream : Nat → Option Result)
    (deadline : Nat) : List Result × Nat :=
  collectGo expected stream deadline 0 []

/-- The `sat.py` collection loop,
`while collected < expected: res = result_queue.get()` — a blocking get
with no deadline.  `fuel` bounds the number of poll attempts observed;
`none` means the loop was still waiting after `fuel` attempts. -/
def satCollectGo (expected : Nat) (stream : Nat → Option Result) :
    Nat → Nat → List Result → Option (List Result)
  | 0, _, acc => if expected ≤ acc.length then some acc else none
  | fuel + 1, t, acc =>
    if acc.length < expected then
      match stream t with
      | some r => satCollectGo expected stream fuel (t + 1) (acc ++ [r])
      | none => satCollectGo expected stream fuel (t + 1) acc
    else some acc

/-- The `sat.py` collection phase observed for `fuel` poll attempts. -/
def satCollect (expected : Nat) (stream : Nat → Option Result) (fuel : Nat) :
    Option (List Result) :=
  satCollectGo expected stream fuel 0 []

/-- The lost payoff exactly as the specification words it: the sum over
failed results plus the sum over dispatched tasks for which no result
arrived before the deadline. -/
def specLostPayoff (dispatched : List Task) (collected : List Result) : ℚ :=
  failed_payoff (buildSummary collected)
  + ((dispatched.filter
        (fun t => !(collected.any (fun r => r.task_name == t.name)))).map
      Task.payoff).sum

/-- The most recent collected result carrying a given task name, if any. -/
def lastResultFor (collected : List Result) (k : String) : Option Result :=
  collected.reverse.find? (fun r => r.task_name == k)

/-! ## Concrete instances used by counterexamples and witnesses -/

/-- A concrete task: name `A`, payoff 10, one resource. -/
def taskA : Task := ⟨"A", 10, [1], none⟩

/-- A concrete task: name `B`, payoff 5, sharing resource 1 with `taskA`. -/
def taskB : Task := ⟨"B", 5, [1], none⟩

/-- A concrete task with fractional payoff `1/2`, for exercising the
`int(payoff * 100)` scaling of the objective. -/
def taskH : Task := ⟨"H", 1 / 2, [1], none⟩

/-- The solution assigning task 0 to satellite 0 and nothing else. -/
def sigma00 : Nat → Nat → Bool := fun i s => i == 0 && s == 0

/-- The empty solution: no task assigned anywhere. -/
def sigmaNone : Nat → Nat → Bool := fun _ _ => false

/-! ## General lemmas -/

theorem list_range_map_sum {M : Type*} [AddCommMonoid M] (f : Nat → M) (n : Nat) :
    ((List.range n).map f).sum = ∑ s ∈ Finset.range n, f s := by
  induction n with
  | zero => simp
  | succ n ih => rw [List.range_succ, Finset.sum_range_succ]; simp [ih]

theorem taskAt_mem (tasks : List Task) (i : Nat) (h : i < tasks.length) :
    taskAt tasks i ∈ tasks := by
  rw [taskAt, List.getD_eq_getElem tasks default h]
  exact List.getElem_mem h

theorem length_decode (tasks : List Task) (n : Nat) (σ : Nat → Nat → Bool) :
    (decode tasks n σ).length = n := by
  simp [decode]

theorem mem_of_mem_decode {tasks : List Task} {n : Nat} {σ : Nat → Nat → Bool}
    {l : List Task} {t : Task} (hl : l ∈ decode tasks n σ) (ht : t ∈ l) :
    t ∈ tasks := by
  rw [decode, List.mem_map] at hl
  obtain ⟨s, _, rfl⟩ := hl
  rw [workerList, List.mem_map] at ht
  obtain ⟨i, hi, rfl⟩ := ht
  exact taskAt_mem tasks i (List.mem_range.mp (List.mem_filter.mp hi).1)

/-- Whatever `ground_cp_solve` or `satmp_cp_solve` returns successfully is
the decoding of a solver solution. -/
theorem eq_decode_of_solve {tasks : List Task} {n : Nat}
    {best : Option (Nat → Nat → Bool)} {A : List (List Task)}
    (h : ground_cp_solve tasks n best = .ok A ∨ satmp_cp_solve tasks n best = some A) :
    ∃ σ, best = some σ ∧ A = decode tasks n σ := by
  cases h with
  | inl h =>
    rw [ground_cp_solve.eq_def] at h
    split at h
    · exact absurd h (by simp)
    · cases best with
      | none => exact absurd h (by simp)
      | some σ => exact ⟨σ, rfl, by injection h with h; exact h.symm⟩
  | inr h =>
    cases best with
    | none => exact absurd h (by simp [satmp_cp_solve])
    | some σ =>
      refine ⟨σ, rfl, ?_⟩
      rw [satmp_cp_solve] at h
      injection h with h
      exact h.symm

theorem decode_getD {tasks : List Task} {n s : Nat} (σ : Nat → Nat → Bool)
    (hs : s < n) :
    (decode tasks n σ).getD s [] = workerList tasks σ s := by
  rw [decode, List.getD_eq_getElem _ _ (by simpa using hs)]
  simp

theorem requiresRes_mem_allResources {tasks : List Task} {t : Task} {r : Int}
    (ht : t ∈ tasks) (hr : requiresRes t r = true) : r ∈ allResources tasks := by
  rw [requiresRes] at hr
  have hmem : r ∈ t.resources := by simpa using hr
  rw [allResources, List.mem_dedup, List.mem_flatten]
  exact ⟨t.resources, List.mem_map.mpr ⟨t, ht, rfl⟩, hmem⟩

theorem mem_workerList {tasks : List Task} {σ : Nat → Nat → Bool} {s : Nat}
    {t : Task} :
    t ∈ workerList tasks σ s
      ↔ ∃ i, (i < tasks.length ∧ σ i s = true) ∧ taskAt tasks i = t := by
  simp [workerList, List.mem_filter, List.mem_range]

/-! ## Claim theorems -/

/-- Claim C10: whenever the optimizer (either variant) returns an assignment, it
is a list of exactly `workerCount` task sequences, and every task record in
any of those sequences is one of the input task records, unchanged. -/
theorem cp_solve_shape (tasks : List Task) (n : Nat)
    (best : Option (Nat → Nat → Bool)) (A : List (List Task))
    (h : ground_cp_solve tasks n best = .ok A ∨ satmp_cp_solve tasks n best = some A) :
    A.length = n ∧ ∀ l ∈ A, ∀ t ∈ l, t ∈ tasks := by
  obtain ⟨σ, -, rfl⟩ := eq_decode_of_solve h
  exact ⟨length_decode tasks n σ, fun l hl t ht => mem_of_mem_decode hl ht⟩

theorem cp_solve_shape_witness :
    (ground_cp_solve [taskA] 1 (some sigma00) = .ok [[taskA]]
      ∨ satmp_cp_solve [taskA] 1 (some sigma00) = some [[taskA]])
    ∧ ([[taskA]] : List (List Task)).length = 1
    ∧ ∀ l ∈ [[taskA]], ∀ t ∈ l, t ∈ [taskA] :=
  ⟨Or.inl rfl,
    (cp_solve_shape [taskA] 1 (some sigma00) [[taskA]] (Or.inl rfl)).1,
    (cp_solve_shape [taskA] 1 (some sigma00) [[taskA]] (Or.inl rfl)).2⟩

/-- Claim C1: every assignment produced by either variant of `cp_solve` respects
resource exclusivity: for every worker slot and every resource id, the
number of tasks in that worker's sequence that require that resource is at
most 1.  (`Feasible σ` is the external solver's contract: a returned
solution satisfies every posted constraint.) -/
theorem cp_solve_resource_exclusivity (tasks : List Task) (n : Nat)
    (σ : Nat → Nat → Bool) (A : List (List Task)) (s : Nat) (r : Int)
    (hfeas : Feasible tasks n σ)
    (h : ground_cp_solve tasks n (some σ) = .ok A
      ∨ satmp_cp_solve tasks n (some σ) = some A) :
    ((A.getD s []).filter (fun t => requiresRes t r)).length ≤ 1 := by
  obtain ⟨σ', hσ, rfl⟩ := eq_decode_of_solve h
  obtain rfl : σ = σ' := by injection hσ
  by_cases hs : s < n
  · rw [decode_getD σ hs, workerList, List.filter_map, List.length_map,
      List.filter_filter]
    simp only [Function.comp_apply]
    by_cases hr : r ∈ allResources tasks
    · calc ((List.range tasks.length).filter
            (fun i => requiresRes (taskAt tasks i) r && σ i s)).length
          = ((List.range tasks.length).filter
            (fun i => σ i s && requiresRes (taskAt tasks i) r)).length := by
            rw [List.filter_congr (fun i _ => Bool.and_comm _ _)]
        _ ≤ 1 := hfeas.2 s hs r hr
    · have hnil : ((List.range tasks.length).filter
          (fun i => requiresRes (taskAt tasks i) r && σ i s)) = [] := by
        rw [List.filter_eq_nil_iff]
        intro i hi hcontra
        simp only [Bool.and_eq_true] at hcontra
        exact hr (requiresRes_mem_allResources
          (taskAt_mem tasks i (List.mem_range.mp hi)) hcontra.1)
      rw [hnil]
      simp
  · rw [List.getD_eq_default _ _ (by rw [length_decode]; exact Nat.le_of_not_lt hs)]
    simp

theorem cp_solve_resource_exclusivity_witness :
    Feasible [taskA, taskB] 1 sigma00
    ∧ (ground_cp_solve [taskA, taskB] 1 (some sigma00) = .ok [[taskA]]
        ∨ satmp_cp_solve [taskA, taskB] 1 (some sigma00) = some [[taskA]])
    ∧ ((([[taskA]] : List (List Task)).getD 0 []).filter
        (fun t => requiresRes t 1)).length ≤ 1 :=
  ⟨by decide, Or.inl rfl,
    cp_solve_resource_exclusivity [taskA, taskB] 1 sigma00 [[taskA]] 0 1
      (by decide) (Or.inl rfl)⟩

/-- Claim C2: under the catalog's unique-name contract, every task appears in the
task sequence of at most one worker of any assignment either variant of
`cp_solve` produces. -/
theorem cp_solve_at_most_one_worker (tasks : List Task) (n : Nat)
    (σ : Nat → Nat → Bool) (A : List (List Task)) (t : Task)
    (hnames : (tasks.map Task.name).Nodup)
    (hfeas : Feasible tasks n σ) (ht : t ∈ tasks)
    (h : ground_cp_solve tasks n (some σ) = .ok A
      ∨ satmp_cp_solve tasks n (some σ) = some A) :
    (A.filter (fun l => decide (t ∈ l))).length ≤ 1 := by
  obtain ⟨σ', hσ, rfl⟩ := eq_decode_of_solve h
  obtain rfl : σ = σ' := by injection hσ
  have hnodup : tasks.Nodup := hnames.of_map
  obtain ⟨i₀, hi₀, hti₀⟩ := List.mem_iff_getElem.mp ht
  have htaskAt : taskAt tasks i₀ = t := by
    rw [taskAt, List.getD_eq_getElem _ _ hi₀, hti₀]
  have hunique : ∀ i, i < tasks.length → taskAt tasks i = t → i = i₀ := by
    intro i hi hit
    have : tasks[i] = tasks[i₀] := by
      rw [← List.getD_eq_getElem tasks default hi, ← taskAt, hit,
        ← htaskAt, taskAt, List.getD_eq_getElem tasks default hi₀]
    exact (List.Nodup.getElem_inj_iff hnodup).mp this
  have hmem : ∀ s, (decide (t ∈ workerList tasks σ s)) = σ i₀ s := by
    intro s
    by_cases hw : t ∈ workerList tasks σ s
    · obtain ⟨i, ⟨hi, hσi⟩, hit⟩ := mem_workerList.mp hw
      obtain rfl : i = i₀ := hunique i hi hit
      simp [hw, hσi]
    · have hσfalse : σ i₀ s = false := by
        by_contra hne
        have hσtrue : σ i₀ s = true := by revert hne; cases σ i₀ s <;> simp
        exact hw (mem_workerList.mpr ⟨i₀, ⟨hi₀, hσtrue⟩, htaskAt⟩)
      rw [decide_eq_false hw, hσfalse]
  rw [decode, List.filter_map, List.length_map]
  simp only [Function.comp_def]
  rw [List.filter_congr (fun s _ => hmem s)]
  exact hfeas.1 i₀ hi₀

theorem cp_solve_at_most_one_worker_witness :
    ([taskA, taskB].map Task.name).Nodup
    ∧ Feasible [taskA, taskB] 2 sigma00
    ∧ taskA ∈ [taskA, taskB]
    ∧ (ground_cp_solve [taskA, taskB] 2 (some sigma00) = .ok [[taskA], []]
        ∨ satmp_cp_solve [taskA, taskB] 2 (some sigma00) = some [[taskA], []])
    ∧ (([[taskA], []] : List (List Task)).filter
        (fun l => decide (taskA ∈ l))).length ≤ 1 :=
  ⟨by decide, by decide, by decide, Or.inl rfl,
    cp_solve_at_most_one_worker [taskA, taskB] 2 sigma00 [[taskA], []] taskA
      (by decide) (by decide) (by decide) (Or.inl rfl)⟩

/-- Claim C4 counterexample: on a solver run that finds zero feasible solutions,
the `sat_multiprocessing` variant of `cp_solve` does not raise anything —
it evaluates to `None`. -/
theorem satmp_infeasible_counterexample :
    satmp_cp_solve [taskA] 1 none = none := rfl

/-- Claim C4 (amended): with a positive worker count, when the bounded-time
search finds zero feasible solutions the `ground.py` variant raises
`Infeasible` (so nothing is dispatched), while the `sat.py` variant returns
`None` and its coordinator then crashes before dispatching any task; when
the search found a feasible solution, both variants return its decoding. -/
theorem infeasible_behavior_amended (tasks : List Task) (n : Nat)
    (σ : Nat → Nat → Bool) (hn : 0 < n) :
    ground_cp_solve tasks n none = .error .infeasible
    ∧ satmp_cp_solve tasks n none = none
    ∧ satmp_dispatched tasks n none = .error .solveReturnedNone
    ∧ ground_cp_solve tasks n (some σ) = .ok (decode tasks n σ)
    ∧ satmp_cp_solve tasks n (some σ) = some (decode tasks n σ) := by
  have hn0 : n ≠ 0 := Nat.pos_iff_ne_zero.mp hn
  refine ⟨?_, rfl, rfl, ?_, rfl⟩ <;> simp [ground_cp_solve, hn0]

theorem infeasible_behavior_amended_witness :
    0 < 1
    ∧ ground_cp_solve [taskA] 1 none = .error .infeasible
    ∧ satmp_cp_solve [taskA] 1 none = none
    ∧ satmp_dispatched [taskA] 1 none = .error .solveReturnedNone
    ∧ ground_cp_solve [taskA] 1 (some sigma00) = .ok (decode [taskA] 1 sigma00)
    ∧ satmp_cp_solve [taskA] 1 (some sigma00) = some (decode [taskA] 1 sigma00) :=
  ⟨by decide, infeasible_behavior_amended [taskA] 1 sigma00 (by decide)⟩

/-- Claim C5 counterexample: with `workerCount = 0` and a non-empty catalog the
`ground.py` variant fails with the division-by-zero error, not with
`Infeasible`; and the `sat.py` variant does not fail at all — its model is
trivially satisfiable and it returns the empty assignment. -/
theorem zero_workers_counterexample :
    ground_cp_solve [taskA] 0 none = .error .zeroDivision
    ∧ SolveErr.zeroDivision ≠ SolveErr.infeasible
    ∧ satmp_cp_solve [taskA] 0 (some sigmaNone) = some [] := by
  refine ⟨rfl, by decide, rfl⟩

/-- Claim C5 (amended): for every non-empty task list and `workerCount = 0`, the
`ground.py` variant fails with `ZeroDivisionError` (computing the average
load) before the solver runs, whatever the solver would have reported; the
`sat.py` variant's constraints are trivially satisfied by any solution and
it returns the empty assignment (zero task sequences) without failing. -/
theorem zero_workers_amended (tasks : List Task)
    (best : Option (Nat → Nat → Bool)) (σ : Nat → Nat → Bool)
    (_h : tasks ≠ []) :
    ground_cp_solve tasks 0 best = .error .zeroDivision
    ∧ satmp_cp_solve tasks 0 (some σ) = some []
    ∧ Feasible tasks 0 σ := by
  refine ⟨rfl, rfl, fun i _ => by simp, fun s hs => absurd hs (Nat.not_lt_zero s)⟩

theorem zero_workers_amended_witness :
    ([taskA] : List Task) ≠ []
    ∧ ground_cp_solve [taskA] 0 none = .error .zeroDivision
    ∧ satmp_cp_solve [taskA] 0 (some sigmaNone) = some []
    ∧ Feasible [taskA] 0 sigmaNone :=
  ⟨by decide, zero_workers_amended [taskA] none sigmaNone (by decide)⟩

/-- Claim C3 counterexample: at the catalog `[{name: H, payoff: 1/2, resources: [1]}]`
with 2 workers and the solution assigning the task to worker 0, the
`ground.py` objective evaluates to `49` (centi-payoff `int(0.5·100) = 50`
minus squared deviation `(1 - int(1/2))² = 1`), whereas the claimed formula
evaluates to `1/2 - ((1 - 1/2)² + (0 - 1/2)²) = 0`; the `sat.py` objective
evaluates to `1/2` (it has no balance term), also different. -/
theorem objective_spec_counterexample :
    ((groundObjective [taskH] 2 sigma00 : ℚ) ≠ specObjective [taskH] 2 sigma00)
    ∧ satObjective [taskH] 2 sigma00 ≠ specObjective [taskH] 2 sigma00 := by
  have hg : groundObjective [taskH] 2 sigma00 = 49 := by
    norm_num [groundObjective, payoffCent, truncQ, taskH, taskAt, sigma00, b2i,
      loadOf, intAvgLoad, List.range_succ]
  have hs : specObjective [taskH] 2 sigma00 = 0 := by
    norm_num [specObjective, taskH, taskAt, sigma00, b2i, loadOf, List.range_succ]
  have ha : satObjective [taskH] 2 sigma00 = 1 / 2 := by
    norm_num [satObjective, taskH, taskAt, sigma00, b2i, List.range_succ]
  rw [hg, hs, ha]
  norm_num

/-- Claim C3 (amended): for every task list, positive worker count and solution,
the `ground.py` objective equals the sum of the truncated centi-payoffs
`int(100·payoff)` over the assigned `(task, worker)` pairs minus `λ = 1`
times the sum over workers of the squared deviation of the load from the
integer-truncated average load `⌊|tasks| / workerCount⌋`; the `sat.py`
objective is the plain payoff sum over assigned pairs with no balance
penalty. -/
theorem objective_amended (tasks : List Task) (n : Nat) (σ : Nat → Nat → Bool)
    (_hn : 0 < n) :
    groundObjective tasks n σ = amendedGroundObjective tasks n σ
    ∧ satObjective tasks n σ = amendedSatObjective tasks n σ := by
  constructor
  · rw [groundObjective, amendedGroundObjective, assignedPairs,
      Finset.sum_filter, Finset.sum_product, list_range_map_sum]
    have hpay : ∀ i, ((List.range n).map
        (fun s => payoffCent (taskAt tasks i) * b2i (σ i s))).sum
        = ∑ s ∈ Finset.range n, if σ i s then payoffCent (taskAt tasks i) else 0 := by
      intro i
      rw [list_range_map_sum]
      refine Finset.sum_congr rfl fun s _ => ?_
      cases h : σ i s <;> simp [b2i, h]
    have hpen : ((List.range n).map (fun s =>
        (loadOf tasks σ s - intAvgLoad tasks n) * (loadOf tasks σ s - intAvgLoad tasks n))).sum
        = ∑ s ∈ Finset.range n, (loadOf tasks σ s - intAvgLoad tasks n) ^ 2 := by
      rw [list_range_map_sum]
      exact Finset.sum_congr rfl fun s _ => (pow_two _).symm
    rw [hpen]
    have : (∑ i ∈ Finset.range tasks.length, ((List.range n).map
        (fun s => payoffCent (taskAt tasks i) * b2i (σ i s))).sum)
        = ∑ i ∈ Finset.range tasks.length, ∑ s ∈ Finset.range n,
            if σ i s then payoffCent (taskAt tasks i) else 0 :=
      Finset.sum_congr rfl fun i _ => hpay i
    rw [this]
    ring
  · rw [satObjective, amendedSatObjective, assignedPairs,
      Finset.sum_filter, Finset.sum_product, list_range_map_sum]
    refine Finset.sum_congr rfl fun i _ => ?_
    rw [list_range_map_sum]
    refine Finset.sum_congr rfl fun s _ => ?_
    cases h : σ i s <;> simp [b2i, h]

theorem objective_amended_witness :
    0 < 2
    ∧ groundObjective [taskH] 2 sigma00 = amendedGroundObjective [taskH] 2 sigma00
    ∧ satObjective [taskH] 2 sigma00 = amendedSatObjective [taskH] 2 sigma00 :=
  ⟨by decide, objective_amended [taskH] 2 sigma00 (by decide)⟩

/-! ## Collection-loop lemmas -/

theorem collectGo_emptyStream (expected : Nat) :
    ∀ (fuel t : Nat) (acc : List Result), acc.length < expected →
      collectGo expected emptyStream fuel t acc = (acc, t + fuel) := by
  intro fuel
  induction fuel with
  | zero => intro t acc _; rfl
  | succ fuel ih =>
    intro t acc h
    rw [collectGo, if_pos h]
    show collectGo expected emptyStream fuel (t + 1) acc = _
    rw [ih (t + 1) acc h]
    congr 1
    omega

theorem groundCollect_emptyStream (expected deadline : Nat) :
    (groundCollect expected emptyStream deadline).1 = []
    ∧ (groundCollect expected emptyStream deadline).2 ≤ deadline := by
  rw [groundCollect]
  by_cases h : 0 < expected
  · rw [collectGo_emptyStream expected deadline 0 [] (by simpa using h)]
    exact ⟨rfl, by omega⟩
  · have hexp : expected = 0 := by omega
    subst hexp
    cases deadline with
    | zero => exact ⟨rfl, Nat.le_refl 0⟩
    | succ d => rw [collectGo, if_neg (by simp)]; exact ⟨rfl, Nat.zero_le _⟩

theorem satCollectGo_emptyStream (expected : Nat) :
    ∀ (fuel t : Nat) (acc : List Result), acc.length < expected →
      satCollectGo expected emptyStream fuel t acc = none := by
  intro fuel
  induction fuel with
  | zero =>
    intro t acc h
    rw [satCollectGo]
    exact if_neg (Nat.not_le.mpr h)
  | succ fuel ih =>
    intro t acc h
    rw [satCollectGo, if_pos h]
    exact ih (t + 1) acc h

/-- Claim C6 counterexample: one dispatched task of payoff 10 and a channel that
never delivers: the `ground.py` collection phase ends with nothing
collected, and the Summary it prints reports lost payoff `0` — not the full
lost payoff `10` the claim requires. -/
theorem timeout_summary_counterexample :
    (groundCollect 1 emptyStream 30).1 = []
    ∧ success_payoff (buildSummary (groundCollect 1 emptyStream 30).1) = 0
    ∧ failed_payoff (buildSummary (groundCollect 1 emptyStream 30).1) = 0
    ∧ totalPayoff [taskA] = 10
    ∧ (0 : ℚ) ≠ 10 := by
  have hc : (groundCollect 1 emptyStream 30).1 = [] :=
    (groundCollect_emptyStream 1 30).1
  refine ⟨hc, ?_, ?_, ?_, by norm_num⟩
  · rw [hc]; rfl
  · rw [hc]; rfl
  · norm_num [totalPayoff, taskA]

/-- Claim C6 (amended): with a channel that never delivers any Result, the
`ground.py` coordinator's collection phase terminates by the deadline with
nothing collected and still produces a Summary — but that Summary shows
zero achieved payoff and zero lost payoff (the shortfall surfaces only as
a missing-result warning count, not as lost payoff); the `sat.py`
coordinator has no deadline at all and its collection loop never
terminates. -/
theorem timeout_termination_amended (expected deadline fuel : Nat)
    (hpos : 0 < expected) :
    (groundCollect expected emptyStream deadline).1 = []
    ∧ (groundCollect expected emptyStream deadline).2 ≤ deadline
    ∧ success_payoff (buildSummary (groundCollect expected emptyStream deadline).1) = 0
    ∧ failed_payoff (buildSummary (groundCollect expected emptyStream deadline).1) = 0
    ∧ satCollect expected emptyStream fuel = none := by
  obtain ⟨h1, h2⟩ := groundCollect_emptyStream expected deadline
  refine ⟨h1, h2, by rw [h1]; rfl, by rw [h1]; rfl, ?_⟩
  exact satCollectGo_emptyStream expected fuel 0 [] (by simpa using hpos)

theorem timeout_termination_amended_witness :
    0 < 1
    ∧ (groundCollect 1 emptyStream 30).1 = []
    ∧ (groundCollect 1 emptyStream 30).2 ≤ 30
    ∧ success_payoff (buildSummary (groundCollect 1 emptyStream 30).1) = 0
    ∧ failed_payoff (buildSummary (groundCollect 1 emptyStream 30).1) = 0
    ∧ satCollect 1 emptyStream 100 = none :=
  ⟨by decide, timeout_termination_amended 1 30 100 (by decide)⟩

/-! ## Summary-dictionary lemmas -/

/-- The key list of the modelled Python dict, in insertion order. -/
def keysOf (m : List (String × Entry)) : List String := m.map Prod.fst

theorem any_key_eq (m : List (String × Entry)) (k : String) :
    m.any (fun p => p.1 == k) = true ↔ k ∈ keysOf m := by
  simp only [keysOf, List.any_eq_true, beq_iff_eq, List.mem_map]

theorem dictInsert_keys (m : List (String × Entry)) (k : String) (v : Entry) :
    keysOf (dictInsert m k v) = if k ∈ keysOf m then keysOf m else keysOf m ++ [k] := by
  rw [dictInsert]
  by_cases h : k ∈ keysOf m
  · rw [if_pos ((any_key_eq m k).mpr h), if_pos h, keysOf, keysOf, List.map_map]
    refine List.map_congr_left fun p _ => ?_
    by_cases hp : p.1 = k
    · simp [Function.comp, beq_iff_eq, hp]
    · simp [Function.comp, beq_iff_eq, hp]
  · rw [if_neg (fun hh => h ((any_key_eq m k).mp hh)), if_neg h, keysOf, keysOf,
      List.map_append]
    rfl

theorem mem_keys_dictInsert (m : List (String × Entry)) (kk : String) (v : Entry)
    (k : String) :
    k ∈ keysOf (dictInsert m kk v) ↔ k ∈ keysOf m ∨ k = kk := by
  rw [dictInsert_keys]
  by_cases h : kk ∈ keysOf m
  · rw [if_pos h]
    constructor
    · exact Or.inl
    · rintro (hk | rfl)
      · exact hk
      · exact h
  · rw [if_neg h]
    simp

theorem mem_dictInsert_iff (m : List (String × Entry)) (kk : String) (v : Entry)
    (k : String) (e : Entry) :
    (k, e) ∈ dictInsert m kk v ↔ (k ≠ kk ∧ (k, e) ∈ m) ∨ (k = kk ∧ e = v) := by
  rw [dictInsert]
  by_cases h : m.any (fun p => p.1 == kk) = true
  · rw [if_pos h]
    constructor
    · intro hmem
      rw [List.mem_map] at hmem
      obtain ⟨p, hp, hfp⟩ := hmem
      by_cases hpk : p.1 = kk
      · rw [if_pos (beq_iff_eq.mpr hpk)] at hfp
        rw [Prod.mk.injEq] at hfp
        exact Or.inr ⟨hfp.1.symm, hfp.2.symm⟩
      · rw [if_neg (fun hb => hpk (beq_iff_eq.mp hb))] at hfp
        subst hfp
        exact Or.inl ⟨hpk, hp⟩
    · rintro (⟨hne, hmem⟩ | ⟨rfl, rfl⟩)
      · rw [List.mem_map]
        exact ⟨(k, e), hmem, by rw [if_neg (fun hb => hne (beq_iff_eq.mp hb))]⟩
      · obtain ⟨p, hp, hpk⟩ := List.mem_map.mp ((any_key_eq m k).mp h)
        rw [List.mem_map]
        exact ⟨p, hp, by rw [if_pos (beq_iff_eq.mpr hpk)]⟩
  · rw [if_neg h, List.mem_append, List.mem_singleton]
    constructor
    · rintro (hmem | heq)
      · refine Or.inl ⟨?_, hmem⟩
        rintro rfl
        exact h ((any_key_eq m k).mpr (List.mem_map.mpr ⟨(k, e), hmem, rfl⟩))
      · rw [Prod.mk.injEq] at heq
        exact Or.inr heq
    · rintro (⟨_, hmem⟩ | ⟨rfl, rfl⟩)
      · exact Or.inl hmem
      · exact Or.inr rfl

theorem buildSummary_append (l : List Result) (r : Result) :
    buildSummary (l ++ [r]) = dictInsert (buildSummary l) r.task_name (mkEntry r) := by
  rw [buildSummary, List.foldl_append]
  rfl

theorem buildSummary_keys_nodup (l : List Result) :
    (keysOf (buildSummary l)).Nodup := by
  induction l using List.reverseRecOn with
  | nil => exact List.nodup_nil
  | append_singleton l r ih =>
    rw [buildSummary_append, dictInsert_keys]
    by_cases h : r.task_name ∈ keysOf (buildSummary l)
    · rwa [if_pos h]
    · rw [if_neg h]
      refine ih.append (List.nodup_singleton _) ?_
      intro a ha hb
      rw [List.mem_singleton] at hb
      subst hb
      exact h ha

theorem mem_keys_buildSummary (l : List Result) (k : String) :
    k ∈ keysOf (buildSummary l) ↔ ∃ r ∈ l, r.task_name = k := by
  induction l using List.reverseRecOn with
  | nil => simp [buildSummary, keysOf]
  | append_singleton l r ih =>
    rw [buildSummary_append, mem_keys_dictInsert]
    constructor
    · rintro (hk | rfl)
      · obtain ⟨r', hr', hname⟩ := ih.mp hk
        exact ⟨r', by simp [hr'], hname⟩
      · exact ⟨r, by simp, rfl⟩
    · rintro ⟨r', hr', rfl⟩
      rcases List.mem_append.mp hr' with hl | hr
      · exact Or.inl (ih.mpr ⟨r', hl, rfl⟩)
      · rw [List.mem_singleton] at hr
        subst hr
        exact Or.inr rfl

theorem mem_buildSummary {l : List Result} {k : String} {e : Entry}
    (h : (k, e) ∈ buildSummary l) :
    ∃ r, lastResultFor l k = some r ∧ e = mkEntry r := by
  induction l using List.reverseRecOn with
  | nil => simp [buildSummary] at h
  | append_singleton l r ih =>
    rw [buildSummary_append, mem_dictInsert_iff] at h
    rcases h with ⟨hne, hmem⟩ | ⟨rfl, rfl⟩
    · obtain ⟨r', hlast, he⟩ := ih hmem
      refine ⟨r', ?_, he⟩
      rw [lastResultFor, List.reverse_append, List.reverse_singleton,
        List.singleton_append, List.find?_cons_of_neg]
      · exact hlast
      · simp [hne.symm]
    · refine ⟨r, ?_, rfl⟩
      rw [lastResultFor, List.reverse_append, List.reverse_singleton,
        List.singleton_append, List.find?_cons_of_pos]
      simp

theorem sum_filter_map_eq {α : Type*} (p : α → Bool) (f : α → ℚ) (m : List α) :
    ((m.filter p).map f).sum = (m.map (fun x => if p x then f x else 0)).sum := by
  induction m with
  | nil => rfl
  | cons a m ih => by_cases h : p a <;> simp [h, ih]

/-- Claim C7 counterexample: dispatched tasks `A` (payoff 10) and `B` (payoff 5),
with one collected result reporting failure of `A` and no result for `B`.
The coordinator's Summary reports lost payoff `10` (the failed result only),
while the claimed formula — failed results plus never-reported dispatched
tasks — gives `15`. -/
theorem lost_payoff_counterexample :
    failed_payoff (buildSummary [⟨1, "A", false, taskA⟩]) = 10
    ∧ specLostPayoff [taskA, taskB] [⟨1, "A", false, taskA⟩] = 15
    ∧ (10 : ℚ) ≠ 15 := by
  refine ⟨?_, ?_, by norm_num⟩
  · norm_num [failed_payoff, buildSummary, dictInsert, mkEntry, taskA]
  · norm_num [specLostPayoff, failed_payoff, buildSummary, dictInsert, mkEntry,
      taskA, taskB, beq_eq_decide, List.filter_cons]
    rw [if_neg (show ("A" : String) ≠ "B" by decide)]
    norm_num

/-- Claim C7 (amended): the Summary's lost payoff is the sum, over the distinct
task names seen among the collected Results, of the task payload's payoff
of the most recent result carrying that name when that result reported
failure; dispatched tasks for which no Result arrived contribute nothing
to it. -/
theorem lost_payoff_amended (collected : List Result) :
    failed_payoff (buildSummary collected)
      = ∑ k ∈ (collected.map Result.task_name).toFinset,
          (match lastResultFor collected k with
           | some r => if r.success then 0 else r.task.payoff
           | none => 0) := by
  have step1 : failed_payoff (buildSummary collected)
      = ((buildSummary collected).map
          (fun p => if p.2.success then 0 else p.2.task.payoff)).sum := by
    rw [failed_payoff, sum_filter_map_eq]
    refine congrArg List.sum (List.map_congr_left fun p _ => ?_)
    cases hps : p.2.success <;> simp [hps]
  have step2 : ((buildSummary collected).map
        (fun p => if p.2.success then 0 else p.2.task.payoff)).sum
      = ((buildSummary collected).map (fun p =>
          (match lastResultFor collected p.1 with
           | some r => if r.success then 0 else r.task.payoff
           | none => (0 : ℚ)))).sum := by
    refine congrArg List.sum (List.map_congr_left fun p hp => ?_)
    obtain ⟨k, e⟩ := p
    obtain ⟨r, hlast, he⟩ := mem_buildSummary hp
    rw [hlast, he]
    rfl
  have step3 : ((buildSummary collected).map (fun p =>
        (match lastResultFor collected p.1 with
         | some r => if r.success then 0 else r.task.payoff
         | none => (0 : ℚ)))).sum
      = ((keysOf (buildSummary collected)).map (fun k =>
          (match lastResultFor collected k with
           | some r => if r.success then 0 else r.task.payoff
           | none => (0 : ℚ)))).sum := by
    rw [keysOf, List.map_map]
    rfl
  have step4 : ((keysOf (buildSummary collected)).map (fun k =>
        (match lastResultFor collected k with
         | some r => if r.success then 0 else r.task.payoff
         | none => (0 : ℚ)))).sum
      = ∑ k ∈ (keysOf (buildSummary collected)).toFinset,
          (match lastResultFor collected k with
           | some r => if r.success then 0 else r.task.payoff
           | none => 0) :=
    (List.sum_toFinset _ (buildSummary_keys_nodup collected)).symm
  have step5 : (keysOf (buildSummary collected)).toFinset
      = (collected.map Result.task_name).toFinset := by
    ext k
    simp only [List.mem_toFinset, mem_keys_buildSummary, List.mem_map]
  rw [step1, step2, step3, step4, step5]

/-- Claim C9: when the collected Results contain two or more entries with the same
task name, the Summary keeps exactly one entry under that name, and its
contents (success flag and task payload) are those of the last such Result
in arrival order. -/
theorem summary_counts_last (collected : List Result) (k : String) (e : Entry)
    (_hdup : 2 ≤ (collected.filter (fun r => r.task_name == k)).length)
    (he : (k, e) ∈ buildSummary collected) :
    ((buildSummary collected).filter (fun p => p.1 == k)).length = 1
    ∧ (lastResultFor collected k).map mkEntry = some e := by
  constructor
  · have hmemk : k ∈ keysOf (buildSummary collected) :=
      List.mem_map.mpr ⟨(k, e), he, rfl⟩
    have hnd := buildSummary_keys_nodup collected
    have hlen : ((buildSummary collected).filter (fun p => p.1 == k)).length
        = (keysOf (buildSummary collected)).count k := by
      rw [keysOf, List.count, List.countP_map, ← List.countP_eq_length_filter]
      rfl
    have h1 : (keysOf (buildSummary collected)).count k ≤ 1 :=
      List.nodup_iff_count_le_one.mp hnd k
    have h2 : 0 < (keysOf (buildSummary collected)).count k :=
      List.count_pos_iff.mpr hmemk
    omega
  · obtain ⟨r, hlast, heq⟩ := mem_buildSummary he
    rw [hlast, heq]
    rfl

theorem summary_counts_last_witness :
    2 ≤ (([⟨1, "A", true, taskA⟩, ⟨2, "A", false, taskB⟩] : List Result).filter
          (fun r => r.task_name == "A")).length
    ∧ ("A", mkEntry ⟨2, "A", false, taskB⟩)
        ∈ buildSummary [⟨1, "A", true, taskA⟩, ⟨2, "A", false, taskB⟩]
    ∧ ((buildSummary [⟨1, "A", true, taskA⟩, ⟨2, "A", false, taskB⟩]).filter
        (fun p => p.1 == "A")).length = 1
    ∧ (lastResultFor [⟨1, "A", true, taskA⟩, ⟨2, "A", false, taskB⟩] "A").map mkEntry
        = some (mkEntry ⟨2, "A", false, taskB⟩) :=
  ⟨by decide, by decide,
    summary_counts_last [⟨1, "A", true, taskA⟩, ⟨2, "A", false, taskB⟩] "A"
      (mkEntry ⟨2, "A", false, taskB⟩) (by decide) (by decide)⟩

/-! ## Ordering lemmas for payoff sums -/

theorem sum_map_le_of_sublist {α : Type*} {f : α → ℚ} {l₁ l₂ : List α}
    (h : List.Sublist l₁ l₂) (hf : ∀ x ∈ l₂, 0 ≤ f x) :
    (l₁.map f).sum ≤ (l₂.map f).sum := by
  induction h with
  | slnil => exact le_refl _
  | cons a h ih =>
    rw [List.map_cons, List.sum_cons]
    have ha : 0 ≤ f a := hf a (List.mem_cons_self a _)
    have hrest := ih fun x hx => hf x (List.mem_cons_of_mem a hx)
    linarith
  | cons₂ a h ih =>
    rw [List.map_cons, List.sum_cons, List.map_cons, List.sum_cons]
    have hrest := ih fun x hx => hf x (List.mem_cons_of_mem a hx)
    linarith

theorem sum_map_le_of_subperm {α : Type*} {f : α → ℚ} {l₁ l₂ : List α}
    (h : List.Subperm l₁ l₂) (hf : ∀ x ∈ l₂, 0 ≤ f x) :
    (l₁.map f).sum ≤ (l₂.map f).sum := by
  obtain ⟨l, hperm, hsub⟩ := h
  calc (l₁.map f).sum = (l.map f).sum := ((hperm.map f).sum_eq).symm
    _ ≤ (l₂.map f).sum := sum_map_le_of_sublist hsub hf

theorem nodup_subset_sum_le {α : Type*} {f : α → ℚ} {l₁ l₂ : List α}
    (h₁ : l₁.Nodup) (h₂ : l₁ ⊆ l₂) (hf : ∀ x ∈ l₂, 0 ≤ f x) :
    (l₁.map f).sum ≤ (l₂.map f).sum :=
  sum_map_le_of_subperm (h₁.subperm h₂) hf

theorem map_eq_range_taskAt {β : Type*} (tasks : List Task) (f : Task → β) :
    tasks.map f = (List.range tasks.length).map (fun i => f (taskAt tasks i)) := by
  induction tasks with
  | nil => rfl
  | cons a l ih =>
    simp only [List.length_cons, List.range_succ_eq_map, List.map_cons,
      List.map_map, Function.comp_def, taskAt, List.getD_cons_zero,
      List.getD_cons_succ]
    exact congrArg (f a :: ·) ih

/-! ## The dispatched index multiset -/

/-- The task indices assigned anywhere, worker by worker, as decoded. -/
def assignedIdx (tasks : List Task) (n : Nat) (σ : Nat → Nat → Bool) : List Nat :=
  ((List.range n).map (fun s => (List.range tasks.length).filter (fun i => σ i s))).flatten

theorem decode_flatten (tasks : List Task) (n : Nat) (σ : Nat → Nat → Bool) :
    (decode tasks n σ).flatten = (assignedIdx tasks n σ).map (taskAt tasks) := by
  rw [assignedIdx, List.map_flatten, List.map_map]
  rfl

theorem two_le_length_of_mem {α : Type*} [DecidableEq α] {l : List α} {a b : α}
    (hnd : l.Nodup) (ha : a ∈ l) (hb : b ∈ l) (hne : a ≠ b) : 2 ≤ l.length := by
  rw [← List.toFinset_card_of_nodup hnd]
  have hsub : ({a, b} : Finset α) ⊆ l.toFinset := by
    intro x hx
    rw [Finset.mem_insert, Finset.mem_singleton] at hx
    rcases hx with rfl | rfl <;> rw [List.mem_toFinset] <;> assumption
  calc 2 = ({a, b} : Finset α).card := (Finset.card_pair hne).symm
    _ ≤ l.toFinset.card := Finset.card_le_card hsub

theorem assignedIdx_nodup {tasks : List Task} {n : Nat} {σ : Nat → Nat → Bool}
    (hfeas : Feasible tasks n σ) : (assignedIdx tasks n σ).Nodup := by
  rw [assignedIdx, List.nodup_flatten]
  constructor
  · intro l hl
    rw [List.mem_map] at hl
    obtain ⟨s, _, rfl⟩ := hl
    exact (List.nodup_range _).filter _
  · rw [List.pairwise_map]
    refine (List.pairwise_lt_range n).imp_of_mem ?_
    intro s s' hs hs' hlt i hi hi'
    rw [List.mem_filter] at hi hi'
    have hiT : i < tasks.length := List.mem_range.mp hi.1
    have h2 : 2 ≤ ((List.range n).filter (fun s => σ i s)).length := by
      refine two_le_length_of_mem ((List.nodup_range n).filter _) ?_ ?_
        (Nat.ne_of_lt hlt)
      · rw [List.mem_filter]; exact ⟨hs, hi.2⟩
      · rw [List.mem_filter]; exact ⟨hs', hi'.2⟩
    have hcount := hfeas.1 i hiT
    omega

theorem assignedIdx_subset {tasks : List Task} {n : Nat} {σ : Nat → Nat → Bool} :
    assignedIdx tasks n σ ⊆ List.range tasks.length := by
  intro i hi
  rw [assignedIdx, List.mem_flatten] at hi
  obtain ⟨l, hl, hil⟩ := hi
  rw [List.mem_map] at hl
  obtain ⟨s, _, rfl⟩ := hl
  exact (List.mem_filter.mp hil).1

theorem totalPayoff_flatten_le {tasks : List Task} {n : Nat} {σ : Nat → Nat → Bool}
    (hfeas : Feasible tasks n σ) (hpos : ∀ t ∈ tasks, 0 ≤ t.payoff) :
    totalPayoff (decode tasks n σ).flatten ≤ totalPayoff tasks := by
  rw [totalPayoff, totalPayoff, decode_flatten, List.map_map,
    map_eq_range_taskAt tasks Task.payoff]
  simp only [Function.comp_def]
  refine nodup_subset_sum_le (assignedIdx_nodup hfeas) assignedIdx_subset ?_
  intro i hi
  exact hpos _ (taskAt_mem tasks i (List.mem_range.mp hi))

/-- Claim C8: achieved payoff is at most the total theoretical payoff of the
dispatched tasks, which is at most the payoff sum of the full catalog.
Hypotheses are the system's contracts: non-negative payoffs, the solver
contract for the returned assignment, and the worker-echo contract — every
collected Result carries one of the dispatched task records, under its own
name. -/
theorem payoff_monotonicity (tasks : List Task) (n : Nat) (σ : Nat → Nat → Bool)
    (A : List (List Task)) (collected : List Result)
    (hpos : ∀ t ∈ tasks, 0 ≤ t.payoff)
    (hfeas : Feasible tasks n σ)
    (hsolve : ground_cp_solve tasks n (some σ) = .ok A
      ∨ satmp_cp_solve tasks n (some σ) = some A)
    (hres : ∀ r ∈ collected, r.task ∈ A.flatten ∧ r.task_name = r.task.name) :
    success_payoff (buildSummary collected) ≤ totalPayoff A.flatten
    ∧ totalPayoff A.flatten ≤ totalPayoff tasks := by
  obtain ⟨σ', hσ, rfl⟩ := eq_decode_of_solve hsolve
  obtain rfl : σ = σ' := by injection hσ
  have hDmem : ∀ t ∈ (decode tasks n σ).flatten, t ∈ tasks := by
    intro t ht
    rw [List.mem_flatten] at ht
    obtain ⟨l, hl, htl⟩ := ht
    exact mem_of_mem_decode hl htl
  have hDpos : ∀ t ∈ (decode tasks n σ).flatten, 0 ≤ t.payoff :=
    fun t ht => hpos t (hDmem t ht)
  have hentry : ∀ p ∈ buildSummary collected,
      p.2.task ∈ (decode tasks n σ).flatten ∧ p.2.task.name = p.1 := by
    rintro ⟨k, e⟩ hp
    obtain ⟨r, hlast, rfl⟩ := mem_buildSummary hp
    rw [lastResultFor] at hlast
    have hrmem : r ∈ collected := List.mem_reverse.mp (List.mem_of_find?_eq_some hlast)
    have hpr := List.find?_some hlast
    have hrk : r.task_name = k := beq_iff_eq.mp hpr
    obtain ⟨htask, hname⟩ := hres r hrmem
    exact ⟨htask, by rw [mkEntry, ← hname, hrk]⟩
  refine ⟨?_, totalPayoff_flatten_le hfeas hpos⟩
  have hfpos : ∀ p ∈ buildSummary collected, 0 ≤ p.2.task.payoff :=
    fun p hp => hDpos _ (hentry p hp).1
  calc success_payoff (buildSummary collected)
      ≤ ((buildSummary collected).map (fun p => p.2.task.payoff)).sum := by
        rw [success_payoff]
        exact sum_map_le_of_sublist (List.filter_sublist _) hfpos
    _ = (((buildSummary collected).map (fun p => p.2.task)).map Task.payoff).sum := by
        rw [List.map_map]
        rfl
    _ ≤ ((decode tasks n σ).flatten.map Task.payoff).sum := by
        refine nodup_subset_sum_le ?_ ?_ (fun t ht => hDpos t ht)
        · refine List.Nodup.of_map Task.name ?_
          rw [List.map_map]
          have heq : (buildSummary collected).map (Task.name ∘ fun p => p.2.task)
              = keysOf (buildSummary collected) := by
            rw [keysOf]
            exact List.map_congr_left fun p hp => (hentry p hp).2
          rw [heq]
          exact buildSummary_keys_nodup collected
        · intro x hx
          rw [List.mem_map] at hx
          obtain ⟨p, hp, rfl⟩ := hx
          exact (hentry p hp).1
    _ = totalPayoff (decode tasks n σ).flatten := by rw [totalPayoff]

theorem payoff_monotonicity_witness :
    (∀ t ∈ [taskA, taskB], 0 ≤ t.payoff)
    ∧ Feasible [taskA, taskB] 1 sigma00
    ∧ (ground_cp_solve [taskA, taskB] 1 (some sigma00) = .ok [[taskA]]
        ∨ satmp_cp_solve [taskA, taskB] 1 (some sigma00) = some [[taskA]])
    ∧ (∀ r ∈ [(⟨1, "A", true, taskA⟩ : Result)],
        r.task ∈ ([[taskA]] : List (List Task)).flatten ∧ r.task_name = r.task.name)
    ∧ success_payoff (buildSummary [⟨1, "A", true, taskA⟩])
        ≤ totalPayoff ([[taskA]] : List (List Task)).flatten
    ∧ totalPayoff ([[taskA]] : List (List Task)).flatten ≤ totalPayoff [taskA, taskB] := by
  have hpos : ∀ t ∈ [taskA, taskB], 0 ≤ t.payoff := by
    intro t ht
    fin_cases ht <;> norm_num [taskA, taskB]
  have hres : ∀ r ∈ [(⟨1, "A", true, taskA⟩ : Result)],
      r.task ∈ ([[taskA]] : List (List Task)).flatten ∧ r.task_name = r.task.name := by
    intro r hr
    rw [List.mem_singleton] at hr
    subst hr
    exact ⟨by decide, rfl⟩
  exact ⟨hpos, by decide, Or.inl rfl, hres,
    payoff_monotonicity [taskA, taskB] 1 sigma00 [[taskA]] [⟨1, "A", true, taskA⟩]
      hpos (by decide) (Or.inl rfl) hres⟩

end SatFleet

